import Mathlib

/-!
Shallow embedding of `src/components/GanttChart.tsx` (bolt-gantt-chart).

Modelling conventions:
* A JavaScript `Date` is its `getTime()` value: an integer number of
  milliseconds since the epoch, modelled as `Int`.
* JavaScript numbers used for percentages are modelled as exact rationals
  (`ℚ`); the divisions in the source are real divisions, `Math.floor` is
  `Int.floor`, `Math.ceil` on the non-negative millisecond quotients is
  Nat ceiling division.
* The one expression whose JS value is `NaN` (the `0/0` in
  `getProgressPercentage` when a task's span has zero length) is modelled
  by `Option ℚ` with `none` standing for `NaN`.
* React `useState` state is gathered into one record `GanttState`; each
  event handler becomes a function `GanttState → GanttState`.
* `Date.now()` readings are inputs (`now` parameters) to the operations
  that read the clock.
-/

namespace Gantt

/-- The `Task` interface of the source: `predecessor?: string` becomes
`Option String`, the two dates are epoch milliseconds. -/
structure Task where
  id : String
  name : String
  phase : String
  startDate : Int
  endDate : Int
  predecessor : Option String
  duration : Nat
deriving Repr, DecidableEq

/-- A phase entry of the `phases` array (value, label, color). -/
structure Phase where
  value : String
  label : String
  color : String
deriving Repr, DecidableEq

/-- The fixed `phases` array of the source. -/
def phases : List Phase :=
  [⟨"initiating", "Initiating", "bg-blue-100 text-blue-800"⟩,
   ⟨"planning", "Planning", "bg-green-100 text-green-800"⟩,
   ⟨"executing", "Executing", "bg-yellow-100 text-yellow-800"⟩,
   ⟨"monitoring", "Monitoring", "bg-purple-100 text-purple-800"⟩,
   ⟨"closing", "Closing", "bg-red-100 text-red-800"⟩]

/-- `1000 * 60 * 60 * 24`, the divisor used throughout the source. -/
def msPerDay : Nat := 1000 * 60 * 60 * 24

/-- `calculateDuration`: `Math.ceil(|end - start| / msPerDay) + 1`.
The absolute difference is a natural number of milliseconds and
`Math.ceil` of its division by `msPerDay` is Nat ceiling division. -/
def calculateDuration (startDate endDate : Int) : Nat :=
  ((endDate - startDate).natAbs + (msPerDay - 1)) / msPerDay + 1

/-- Models JavaScript `String.prototype.trim` (used as `formData.name.trim()`
in `addTask`): strips leading and trailing whitespace. Written over the
character list so that it is kernel-computable. -/
def jsTrim (s : String) : String :=
  (((s.data.dropWhile Char.isWhitespace).reverse.dropWhile Char.isWhitespace).reverse).asString

/-- The `formData` state: `startDate`/`endDate` are `Date`s (ms),
`predecessor` is a plain string (empty = not given). -/
structure FormData where
  name : String
  phase : String
  startDate : Int
  endDate : Int
  predecessor : String
deriving Repr, DecidableEq

/-- The `editData` state, a `Partial<Task>` restricted to the four fields
the source ever writes; an absent key is `none`. -/
structure EditData where
  name : Option String
  startDate : Option Int
  endDate : Option Int
  predecessor : Option String
deriving Repr, DecidableEq

/-- The empty draft `{}`. -/
def emptyEditData : EditData := ⟨none, none, none, none⟩

/-- The component state: the three `useState` cells that the store
operations touch. -/
structure GanttState where
  tasks : List Task
  formData : FormData
  editingTask : Option String
  editData : EditData
deriving Repr, DecidableEq

/-- The initial state: empty task list, form reset with both dates at the
session's current time `now`, no edit in progress. -/
def initialState (now : Int) : GanttState :=
  { tasks := []
    formData := ⟨"", "initiating", now, now, ""⟩
    editingTask := none
    editData := emptyEditData }

/-- `addTask`: no-op when the trimmed name is empty; otherwise appends a
new task whose id is `Date.now().toString()` and resets the form.
`now` is the `Date.now()` reading (also used for the form's fresh
`new Date()` values, read at the same instant). -/
def addTask (now : Nat) (s : GanttState) : GanttState :=
  if jsTrim s.formData.name = "" then s
  else
    let newTask : Task :=
      { id := toString now
        name := s.formData.name
        phase := s.formData.phase
        startDate := s.formData.startDate
        endDate := s.formData.endDate
        predecessor := if s.formData.predecessor = "" then none
                       else some s.formData.predecessor
        duration := calculateDuration s.formData.startDate s.formData.endDate }
    { s with
      tasks := s.tasks ++ [newTask]
      formData := ⟨"", "initiating", (now : Int), (now : Int), ""⟩ }

/-- `deleteTask`: keeps the tasks whose id differs from the argument. -/
def deleteTask (id : String) (s : GanttState) : GanttState :=
  { s with tasks := s.tasks.filter (fun task => task.id != id) }

/-- `startEditing`: records the edited id and seeds the draft with copies
of the task's editable fields (`task.predecessor || ''`). -/
def startEditing (task : Task) (s : GanttState) : GanttState :=
  { s with
    editingTask := some task.id
    editData :=
      { name := some task.name
        startDate := some task.startDate
        endDate := some task.endDate
        predecessor := some (task.predecessor.getD "") } }

/-- The object spread `{...task, ...editData, duration: ...}` applied to
one task: a key present in the draft overrides the task's field, and
`duration` is recomputed exactly when the draft carries both dates. -/
def mergeEdit (editData : EditData) (task : Task) : Task :=
  { task with
    name := editData.name.getD task.name
    startDate := editData.startDate.getD task.startDate
    endDate := editData.endDate.getD task.endDate
    predecessor := match editData.predecessor with
      | some p => some p
      | none => task.predecessor
    duration := match editData.startDate, editData.endDate with
      | some ns, some ne => calculateDuration ns ne
      | _, _ => task.duration }

/-- `saveEdit`: no-op when no edit is active; otherwise rewrites the task
bearing the edited id through `mergeEdit` and clears the draft. -/
def saveEdit (s : GanttState) : GanttState :=
  match s.editingTask with
  | none => s
  | some editingTask =>
    { s with
      tasks := s.tasks.map (fun task =>
        if task.id = editingTask then mergeEdit s.editData task else task)
      editingTask := none
      editData := emptyEditData }

/-- `cancelEdit`: drops the draft without touching the tasks. -/
def cancelEdit (s : GanttState) : GanttState :=
  { s with editingTask := none, editData := emptyEditData }

/-- `getTasksByPhase`: for each phase value, in the order of `phases`,
the sub-list of tasks of that phase. The source stores the lists in an
object keyed by the phase value; the association list keeps those keys
in the order they are written. -/
def getTasksByPhase (tasks : List Task) : List (String × List Task) :=
  phases.map (fun phase => (phase.value, tasks.filter (fun task => task.phase == phase.value)))

/-- The record returned by `getTimelineData`. -/
structure TimelineData where
  startDate : Int
  endDate : Int
  totalDays : Nat
deriving Repr, DecidableEq

/-- `getTimelineData`: on an empty list the degenerate axis at the current
date with `totalDays = 1`; otherwise the min and max over all start and
end dates and `Math.ceil((max - min) / msPerDay) + 1`. `Math.min` over
the non-empty date list is folded with the first task's start date as
seed, which is itself a member of the list, so the fold equals the
list's minimum (likewise for max). -/
def getTimelineData (currentDate : Int) (tasks : List Task) : TimelineData :=
  match tasks with
  | [] => ⟨currentDate, currentDate, 1⟩
  | t :: ts =>
    let dates := (t :: ts).flatMap (fun task => [task.startDate, task.endDate])
    let minDate := dates.foldl min t.startDate
    let maxDate := dates.foldl max t.startDate
    ⟨minDate, maxDate, ((maxDate - minDate).toNat + (msPerDay - 1)) / msPerDay + 1⟩

/-- The `{left, width}` pair returned by `getTaskPosition`, as exact
rationals. -/
structure Position where
  left : ℚ
  width : ℚ
deriving Repr, DecidableEq

/-- `getTaskPosition`: `taskStart = Math.floor((task.startDate -
timelineStart) / msPerDay)`, then the two percentages of `totalDays`. -/
def getTaskPosition (task : Task) (timelineStart : Int) (totalDays : Nat) : Position :=
  let taskStart : Int := ⌊((task.startDate - timelineStart : Int) : ℚ) / (msPerDay : ℚ)⌋
  { left := ((taskStart : ℚ) / (totalDays : ℚ)) * 100
    width := ((task.duration : ℚ) / (totalDays : ℚ)) * 100 }

/-- `getProgressPercentage` with the current instant `today` passed in.
When `today` falls inside a zero-length span the source computes `0/0`,
which is `NaN` in JavaScript and survives the `Math.min`/`Math.max`
clamp; that value is modelled as `none`. -/
def getProgressPercentage (today : Int) (task : Task) : Option ℚ :=
  if today < task.startDate then some 0
  else if task.endDate < today then some 100
  else if task.endDate - task.startDate = 0 then none
  else some (min 100 (max 0
    (((today - task.startDate : Int) : ℚ) / ((task.endDate - task.startDate : Int) : ℚ) * 100)))

/-! ### Operation traces for the id-uniqueness claims -/

/-- A user action touching the task collection: filling the form and
clicking add (with the `Date.now()` reading of that instant), or deleting
by id. -/
inductive Op where
  | add : Nat → FormData → Op
  | del : String → Op
deriving Repr, DecidableEq

/-- Runs one action: an add first stores the submitted form fields, then
fires `addTask`; a delete fires `deleteTask`. -/
def applyOp (s : GanttState) : Op → GanttState
  | Op.add now fd => addTask now { s with formData := fd }
  | Op.del id => deleteTask id s

/-- Runs a list of actions in order. -/
def runOps (ops : List Op) (s : GanttState) : GanttState :=
  ops.foldl applyOp s

/-- The `Date.now()` readings of the add actions of a trace, in order. -/
def addTimes : List Op → List Nat
  | [] => []
  | Op.add now _ :: rest => now :: addTimes rest
  | Op.del _ :: rest => addTimes rest

/-- The ids of the tasks of a state, in collection order. -/
def taskIds (s : GanttState) : List String :=
  s.tasks.map Task.id

end Gantt

/-- The numeric value of a decimal digit character (used to show that the
decimal rendering of `Date.now()` readings is injective). -/
def digitVal (c : Char) : Nat := c.toNat - 48

/-- The number denoted by a list of decimal digit characters, most
significant first. -/
def digitsVal (l : List Char) : Nat := l.foldl (fun a c => 10 * a + digitVal c) 0

open Gantt

/-! ### Theorems -/

/-- Reading back a digit below ten. -/
theorem digitVal_digitChar : ∀ d, d < 10 → digitVal (Nat.digitChar d) = d := by decide

/-- Appending a digit multiplies the value by ten and adds the digit. -/
theorem digitsVal_append_singleton (l : List Char) (c : Char) :
    digitsVal (l ++ [c]) = 10 * digitsVal l + digitVal c := by
  unfold digitsVal
  rw [List.foldl_append]
  rfl

/-- The accumulator of `Nat.toDigitsCore` is only ever appended to. -/
theorem toDigitsCore_acc (fuel : Nat) : ∀ (n : Nat) (ds : List Char),
    Nat.toDigitsCore 10 fuel n ds = Nat.toDigitsCore 10 fuel n [] ++ ds := by
  induction fuel with
  | zero => intro n ds; simp [Nat.toDigitsCore]
  | succ f ih =>
    intro n ds
    unfold Nat.toDigitsCore
    by_cases h : n / 10 = 0
    · simp [h]
    · simp only [h, if_false]
      rw [ih (n / 10) (Nat.digitChar (n % 10) :: ds), ih (n / 10) [Nat.digitChar (n % 10)],
        List.append_assoc]
      rfl

/-- With enough fuel, `Nat.toDigitsCore` renders exactly its input. -/
theorem digitsVal_toDigitsCore (n : Nat) : ∀ fuel, n < fuel →
    digitsVal (Nat.toDigitsCore 10 fuel n []) = n := by
  induction n using Nat.strong_induction_on with
  | _ n ih =>
    intro fuel hfuel
    cases fuel with
    | zero => exact absurd hfuel (Nat.not_lt_zero n)
    | succ f =>
      unfold Nat.toDigitsCore
      by_cases h : n / 10 = 0
      · have hn : n < 10 := (Nat.div_eq_zero_iff (by norm_num)).mp h
        simp only [h, if_true]
        show digitsVal [Nat.digitChar (n % 10)] = n
        unfold digitsVal
        simp only [List.foldl_cons, List.foldl_nil, Nat.mul_zero, Nat.zero_add]
        rw [Nat.mod_eq_of_lt hn]
        exact digitVal_digitChar n hn
      · simp only [h, if_false]
        rw [toDigitsCore_acc, digitsVal_append_singleton]
        have hpos : 0 < n := Nat.pos_of_ne_zero (fun h0 => h (by simp [h0]))
        have hlt : n / 10 < n := Nat.div_lt_self hpos (by norm_num)
        have hfu : n / 10 < f := lt_of_lt_of_le hlt (Nat.lt_succ_iff.mp hfuel)
        rw [ih (n / 10) hlt f hfu, digitVal_digitChar (n % 10) (Nat.mod_lt n (by norm_num))]
        exact Nat.div_add_mod n 10

/-- The decimal rendering of a natural number evaluates back to it. -/
theorem digitsVal_toDigits (n : Nat) : digitsVal (Nat.toDigits 10 n) = n :=
  digitsVal_toDigitsCore n (n + 1) (Nat.lt_succ_self n)

/-- `toString` on natural numbers (`Date.now().toString()`) is injective. -/
theorem natToString_injective : Function.Injective (fun n : Nat => toString n) := by
  intro a b h
  have h2 : Nat.toDigits 10 a = Nat.toDigits 10 b := congrArg String.data h
  calc a = digitsVal (Nat.toDigits 10 a) := (digitsVal_toDigits a).symm
    _ = b := by rw [h2, digitsVal_toDigits]

/-- `addTimes` distributes over trace concatenation. -/
theorem addTimes_append (a b : List Op) :
    addTimes (a ++ b) = addTimes a ++ addTimes b := by
  induction a with
  | nil => rfl
  | cons op rest ih => cases op <;> simp [addTimes, ih]

/-- Running a concatenated trace runs the pieces in order. -/
theorem runOps_append (a b : List Op) (s : GanttState) :
    runOps (a ++ b) s = runOps b (runOps a s) :=
  List.foldl_append applyOp s a b

/-- `addTask` either leaves the id list alone (blank name) or appends the
id rendered from the clock reading. -/
theorem taskIds_addTask (now : Nat) (s : GanttState) :
    taskIds (addTask now s) = taskIds s ∨
    taskIds (addTask now s) = taskIds s ++ [toString now] := by
  unfold addTask
  by_cases h : jsTrim s.formData.name = ""
  · left; rw [if_pos h]
  · right; rw [if_neg h]; simp [taskIds]

/-- `deleteTask` only removes ids. -/
theorem taskIds_deleteTask_sublist (id : String) (s : GanttState) :
    (taskIds (deleteTask id s)).Sublist (taskIds s) :=
  List.Sublist.map Task.id (List.filter_sublist s.tasks)

/-- Invariant of a run: when the clock readings of the trace's adds are
fresh (disjoint from the readings `u` that produced the ids already in
the state) and pairwise distinct, the id list stays duplicate-free, and
every id of the final state is the rendering of a reading from `u` or
from the trace. -/
theorem runOps_ids (ops : List Op) :
    ∀ (s : GanttState) (u : List Nat),
      (∀ i ∈ taskIds s, ∃ n ∈ u, i = toString n) →
      (taskIds s).Nodup →
      (∀ n ∈ u, n ∉ addTimes ops) →
      (addTimes ops).Nodup →
      (taskIds (runOps ops s)).Nodup ∧
      (∀ i ∈ taskIds (runOps ops s),
        ∃ n, (n ∈ u ∨ n ∈ addTimes ops) ∧ i = toString n) := by
  induction ops with
  | nil =>
    intro s u hsub hnd _ _
    exact ⟨hnd, fun i hi => (hsub i hi).elim fun n hn => ⟨n, Or.inl hn.1, hn.2⟩⟩
  | cons op rest ih =>
    intro s u hsub hnd hdisj hopsnd
    cases op with
    | del id =>
      have hsubl := taskIds_deleteTask_sublist id s
      obtain ⟨hnd', hsub'⟩ := ih (deleteTask id s) u
        (fun i hi => hsub i (hsubl.subset hi))
        (List.Nodup.sublist hsubl hnd) hdisj hopsnd
      exact ⟨hnd', hsub'⟩
    | add now fd =>
      have hnow_notin : now ∉ addTimes rest := (List.nodup_cons.mp hopsnd).1
      have hrestnd : (addTimes rest).Nodup := (List.nodup_cons.mp hopsnd).2
      have hdisj' : ∀ n ∈ now :: u, n ∉ addTimes rest := by
        intro n hn
        rcases List.mem_cons.mp hn with rfl | hn'
        · exact hnow_notin
        · exact fun hmem => hdisj n hn' (List.mem_cons_of_mem _ hmem)
      have hstep :
          (∀ i ∈ taskIds (addTask now { s with formData := fd }),
            ∃ n ∈ now :: u, i = toString n) ∧
          (taskIds (addTask now { s with formData := fd })).Nodup := by
        rcases taskIds_addTask now { s with formData := fd } with hc | hc
        · rw [hc]
          exact ⟨fun i hi => (hsub i hi).elim
            (fun n hn => ⟨n, List.mem_cons_of_mem _ hn.1, hn.2⟩), hnd⟩
        · rw [hc]
          have hfresh : toString now ∉ taskIds s := by
            intro hmem
            obtain ⟨n, hn, he⟩ := hsub _ hmem
            have hnn : now = n := natToString_injective he
            exact hdisj n hn (hnn ▸ List.mem_cons_self now (addTimes rest))
          refine ⟨?_, ?_⟩
          · intro i hi
            rcases List.mem_append.mp hi with hi' | hi'
            · exact (hsub i hi').elim fun n hn => ⟨n, List.mem_cons_of_mem _ hn.1, hn.2⟩
            · exact ⟨now, List.mem_cons_self _ _, List.mem_singleton.mp hi'⟩
          · rw [List.nodup_append]
            refine ⟨hnd, List.nodup_singleton _, ?_⟩
            intro x hx hx'
            rw [List.mem_singleton] at hx'
            exact hfresh (hx' ▸ hx)
      obtain ⟨hnd', hsub'⟩ := ih (addTask now { s with formData := fd }) (now :: u)
        hstep.1 hstep.2 hdisj' hrestnd
      refine ⟨hnd', fun i hi => ?_⟩
      obtain ⟨n, hn, he⟩ := hsub' i hi
      rcases hn with hn | hn
      · rcases List.mem_cons.mp hn with rfl | hn'
        · exact ⟨n, Or.inr (List.mem_cons_self _ _), he⟩
        · exact ⟨n, Or.inl hn', he⟩
      · exact ⟨n, Or.inr (List.mem_cons_of_mem _ hn), he⟩

/-- An id that enters the collection during a run is the rendering of one
of the run's clock readings. -/
theorem new_id_from_add (ops : List Op) :
    ∀ (s : GanttState) (i : String), i ∉ taskIds s →
      i ∈ taskIds (runOps ops s) → ∃ n ∈ addTimes ops, i = toString n := by
  induction ops with
  | nil => intro s i h1 h2; exact absurd h2 h1
  | cons op rest ih =>
    intro s i h1 h2
    cases op with
    | del id =>
      by_cases hmem : i ∈ taskIds (deleteTask id s)
      · exact absurd ((taskIds_deleteTask_sublist id s).subset hmem) h1
      · exact ih (deleteTask id s) i hmem h2
    | add now fd =>
      by_cases hmem : i ∈ taskIds (addTask now { s with formData := fd })
      · rcases taskIds_addTask now { s with formData := fd } with hc | hc
        · rw [hc] at hmem; exact absurd hmem h1
        · rw [hc] at hmem
          rcases List.mem_append.mp hmem with h | h
          · exact absurd h h1
          · exact ⟨now, List.mem_cons_self _ _, List.mem_singleton.mp h⟩
      · obtain ⟨n, hn, he⟩ := ih (addTask now { s with formData := fd }) i hmem h2
        exact ⟨n, List.mem_cons_of_mem _ hn, he⟩

/-- Unfolding lemma for `getTaskPosition` (the `let` inlined). -/
theorem getTaskPosition_eval (task : Task) (timelineStart : Int) (totalDays : Nat) :
    getTaskPosition task timelineStart totalDays =
      ⟨((⌊((task.startDate - timelineStart : Int) : ℚ) / (msPerDay : ℚ)⌋ : ℚ) /
          (totalDays : ℚ)) * 100,
        ((task.duration : ℚ) / (totalDays : ℚ)) * 100⟩ := rfl

/-- Claim C1: for tasks A(2024-01-01 … 2024-01-05) and
B(2024-01-03 … 2024-01-10), both day-normalized (UTC-midnight epoch
milliseconds), the axis runs 2024-01-01 … 2024-01-10 with `totalDays = 10`,
the durations are 5 and 8, and the positions are (left 0, width 50) and
(left 20, width 80). -/
theorem two_task_scenario :
    (⟨"1", "A", "initiating", 1704067200000, 1704412800000, none,
        calculateDuration 1704067200000 1704412800000⟩ : Task).duration = 5 ∧
    (⟨"2", "B", "planning", 1704240000000, 1704844800000, none,
        calculateDuration 1704240000000 1704844800000⟩ : Task).duration = 8 ∧
    getTimelineData 0
      [⟨"1", "A", "initiating", 1704067200000, 1704412800000, none, 5⟩,
       ⟨"2", "B", "planning", 1704240000000, 1704844800000, none, 8⟩] =
      ⟨1704067200000, 1704844800000, 10⟩ ∧
    getTaskPosition ⟨"1", "A", "initiating", 1704067200000, 1704412800000, none, 5⟩
      1704067200000 10 = ⟨0, 50⟩ ∧
    getTaskPosition ⟨"2", "B", "planning", 1704240000000, 1704844800000, none, 8⟩
      1704067200000 10 = ⟨20, 80⟩ := by
  refine ⟨by decide, by decide, by decide, ?_, ?_⟩ <;>
    · rw [getTaskPosition_eval]
      norm_num [msPerDay, Position.mk.injEq]

/-- Claim C3 (failing input): at `today = startDate = endDate` the source
reaches `elapsed / totalDuration = 0 / 0`, i.e. `NaN` (modelled `none`),
instead of the 100 the spec prescribes; one millisecond-or-more later the
`today > endDate` guard does return 100. -/
theorem progress_nan_on_zero_span :
    getProgressPercentage 0 ⟨"1", "T", "initiating", 0, 0, none, 1⟩ = none ∧
    getProgressPercentage 86400000 ⟨"1", "T", "initiating", 0, 0, none, 1⟩ = some 100 := by
  decide

/-- Claim C6: when the trimmed form name is empty, `addTask` returns the
state unchanged — same task collection, same form, no error. -/
theorem addTask_blank_name (now : Nat) (s : GanttState)
    (h : jsTrim s.formData.name = "") :
    addTask now s = s := by
  simp [addTask, h]

/-- Witness for C6 at the whitespace-only name `"   "`. -/
theorem addTask_blank_name_witness :
    jsTrim "   " = "" ∧
    addTask 7 ⟨[], ⟨"   ", "initiating", 0, 0, ""⟩, none, emptyEditData⟩ =
      ⟨[], ⟨"   ", "initiating", 0, 0, ""⟩, none, emptyEditData⟩ :=
  ⟨by decide, addTask_blank_name 7 _ (by decide)⟩

/-- Claim C7: on the empty task list `getTimelineData` returns the
degenerate axis at the current date with `totalDays = 1` (never 0). -/
theorem getTimelineData_empty (currentDate : Int) :
    getTimelineData currentDate [] = ⟨currentDate, currentDate, 1⟩ := rfl

/-- Claim C8: starting an edit of a stored task and cancelling it leaves
the task collection — the edited task included — exactly as it was. -/
theorem beginEdit_cancelEdit_frame (s : GanttState) (task : Task)
    (_h : task ∈ s.tasks) :
    (cancelEdit (startEditing task s)).tasks = s.tasks := rfl

/-- A fold of `min` is bounded by its seed. -/
theorem foldl_min_le_seed (l : List Int) : ∀ a : Int, l.foldl min a ≤ a := by
  induction l with
  | nil => exact fun a => le_refl a
  | cons y ys ih => exact fun a => le_trans (ih (min a y)) (min_le_left a y)

/-- A fold of `min` is bounded by every list element. -/
theorem foldl_min_le_mem (l : List Int) (x : Int) (hx : x ∈ l) :
    ∀ a : Int, l.foldl min a ≤ x := by
  induction l with
  | nil => cases hx
  | cons y ys ih =>
    intro a
    rcases List.mem_cons.mp hx with rfl | h
    · exact le_trans (foldl_min_le_seed ys (min a x)) (min_le_right a x)
    · exact ih h (min a y)

/-- A fold of `max` dominates its seed. -/
theorem seed_le_foldl_max (l : List Int) : ∀ a : Int, a ≤ l.foldl max a := by
  induction l with
  | nil => exact fun a => le_refl a
  | cons y ys ih => exact fun a => le_trans (le_max_left a y) (ih (max a y))

/-- A fold of `max` dominates every list element. -/
theorem mem_le_foldl_max (l : List Int) (x : Int) (hx : x ∈ l) :
    ∀ a : Int, x ≤ l.foldl max a := by
  induction l with
  | nil => cases hx
  | cons y ys ih =>
    intro a
    rcases List.mem_cons.mp hx with rfl | h
    · exact le_trans (le_max_right a x) (seed_le_foldl_max ys (max a x))
    · exact ih h (max a y)

/-- A common divisor of the seed and all elements divides a fold of `min`. -/
theorem dvd_foldl_min (d : Int) (l : List Int) :
    ∀ a : Int, d ∣ a → (∀ x ∈ l, d ∣ x) → d ∣ l.foldl min a := by
  induction l with
  | nil => exact fun _ ha _ => ha
  | cons y ys ih =>
    intro a ha hl
    refine ih (min a y) ?_ (fun x hx => hl x (List.mem_cons_of_mem y hx))
    rcases le_total a y with h | h
    · rwa [min_eq_left h]
    · rw [min_eq_right h]; exact hl y (List.mem_cons_self y ys)

/-- A common divisor of the seed and all elements divides a fold of `max`. -/
theorem dvd_foldl_max (d : Int) (l : List Int) :
    ∀ a : Int, d ∣ a → (∀ x ∈ l, d ∣ x) → d ∣ l.foldl max a := by
  induction l with
  | nil => exact fun _ ha _ => ha
  | cons y ys ih =>
    intro a ha hl
    refine ih (max a y) ?_ (fun x hx => hl x (List.mem_cons_of_mem y hx))
    rcases le_total a y with h | h
    · rw [max_eq_right h]; exact hl y (List.mem_cons_self y ys)
    · rwa [max_eq_left h]

/-- Claim C2 (amended): the layout contract `leftPercent + widthPercent ≤
100` holds for every task `t` of a non-empty day-normalized task set whose
own dates are ordered (`startDate ≤ endDate`) and whose stored duration is
the derived one; the other tasks of the set are arbitrary. -/
theorem position_within_axis (currentDate : Int) (tasks : List Task) (t : Task)
    (ht : t ∈ tasks)
    (hnorm : ∀ u ∈ tasks, (msPerDay : Int) ∣ u.startDate ∧ (msPerDay : Int) ∣ u.endDate)
    (hord : t.startDate ≤ t.endDate)
    (hdur : t.duration = calculateDuration t.startDate t.endDate) :
    (getTaskPosition t (getTimelineData currentDate tasks).startDate
        (getTimelineData currentDate tasks).totalDays).left +
      (getTaskPosition t (getTimelineData currentDate tasks).startDate
        (getTimelineData currentDate tasks).totalDays).width ≤ 100 := by
  cases tasks with
  | nil => exact absurd ht (List.not_mem_nil t)
  | cons t0 ts =>
    have hmsPos : (0 : Int) < (msPerDay : Int) := by norm_num [msPerDay]
    have hmsPos' : 0 < msPerDay := by norm_num [msPerDay]
    set dates := (t0 :: ts).flatMap (fun task => [task.startDate, task.endDate]) with hdates
    set m := dates.foldl min t0.startDate with hmdef
    set M := dates.foldl max t0.startDate with hMdef
    have htl : getTimelineData currentDate (t0 :: ts) =
        ⟨m, M, ((M - m).toNat + (msPerDay - 1)) / msPerDay + 1⟩ := rfl
    have hsd : t.startDate ∈ dates := List.mem_flatMap.mpr ⟨t, ht, by simp⟩
    have hed : t.endDate ∈ dates := List.mem_flatMap.mpr ⟨t, ht, by simp⟩
    have hm_le : m ≤ t.startDate := foldl_min_le_mem dates t.startDate hsd t0.startDate
    have hM_ge : t.endDate ≤ M := mem_le_foldl_max dates t.endDate hed t0.startDate
    have hdvd_dates : ∀ x ∈ dates, (msPerDay : Int) ∣ x := by
      intro x hx
      obtain ⟨u, hu, hxu⟩ := List.mem_flatMap.mp hx
      have : x = u.startDate ∨ x = u.endDate := by simpa using hxu
      rcases this with rfl | rfl
      · exact (hnorm u hu).1
      · exact (hnorm u hu).2
    have hdm : (msPerDay : Int) ∣ m :=
      dvd_foldl_min _ dates t0.startDate (hnorm t0 (List.mem_cons_self t0 ts)).1 hdvd_dates
    have hdM : (msPerDay : Int) ∣ M :=
      dvd_foldl_max _ dates t0.startDate (hnorm t0 (List.mem_cons_self t0 ts)).1 hdvd_dates
    obtain ⟨j, hj⟩ : (msPerDay : Int) ∣ (t.startDate - m) := dvd_sub (hnorm t ht).1 hdm
    obtain ⟨k, hk⟩ : (msPerDay : Int) ∣ (M - m) := dvd_sub hdM hdm
    obtain ⟨e, he⟩ : (msPerDay : Int) ∣ (t.endDate - t.startDate) :=
      dvd_sub (hnorm t ht).2 (hnorm t ht).1
    have hj0 : 0 ≤ j :=
      (mul_nonneg_iff_of_pos_left hmsPos).mp (hj ▸ sub_nonneg.mpr hm_le)
    have hk0 : 0 ≤ k :=
      (mul_nonneg_iff_of_pos_left hmsPos).mp
        (hk ▸ sub_nonneg.mpr (le_trans hm_le (le_trans hord hM_ge)))
    have he0 : 0 ≤ e :=
      (mul_nonneg_iff_of_pos_left hmsPos).mp (he ▸ sub_nonneg.mpr hord)
    have hje : j + e ≤ k := by
      have h1 : (msPerDay : Int) * (j + e) ≤ (msPerDay : Int) * k := by
        rw [mul_add, ← hj, ← he, ← hk]
        linarith
      exact (mul_le_mul_left hmsPos).mp h1
    have hK : (M - m).toNat = msPerDay * k.toNat := by
      have h2 : M - m = ((msPerDay * k.toNat : Nat) : Int) := by
        rw [hk]; push_cast [Int.toNat_of_nonneg hk0]; ring
      rw [h2, Int.toNat_natCast]
    have htd : ((M - m).toNat + (msPerDay - 1)) / msPerDay + 1 = k.toNat + 1 := by
      rw [hK, Nat.mul_add_div hmsPos',
        Nat.div_eq_of_lt (by norm_num [msPerDay]), Nat.add_zero]
    have hE : (t.endDate - t.startDate).natAbs = msPerDay * e.toNat := by
      have h2 : t.endDate - t.startDate = ((msPerDay * e.toNat : Nat) : Int) := by
        rw [he]; push_cast [Int.toNat_of_nonneg he0]; ring
      rw [h2, Int.natAbs_ofNat]
    have hdur2 : t.duration = e.toNat + 1 := by
      rw [hdur]
      unfold calculateDuration
      rw [hE, Nat.mul_add_div hmsPos',
        Nat.div_eq_of_lt (by norm_num [msPerDay]), Nat.add_zero]
    have hfloor : ⌊((t.startDate - m : Int) : ℚ) / (msPerDay : ℚ)⌋ = j := by
      rw [hj]
      push_cast
      rw [mul_div_cancel_left₀ _ (by norm_num [msPerDay] : ((msPerDay : Nat) : ℚ) ≠ 0),
        Int.floor_intCast]
    rw [htl, getTaskPosition_eval]
    dsimp only
    rw [htd, hfloor, hdur2]
    have hT : (0 : ℚ) < ((k.toNat + 1 : Nat) : ℚ) :=
      Nat.cast_pos.mpr (Nat.succ_pos _)
    rw [div_mul_eq_mul_div, div_mul_eq_mul_div, div_add_div_same, div_le_iff₀ hT]
    have hj' : ((j : ℚ)) ≤ (k.toNat : ℚ) - (e.toNat : ℚ) := by
      have hjq : ((j : ℚ)) + (e.toNat : ℚ) ≤ (k.toNat : ℚ) := by
        have : (j : ℚ) + ((e.toNat : Int) : ℚ) ≤ ((k.toNat : Int) : ℚ) := by
          exact_mod_cast (by rw [Int.toNat_of_nonneg he0, Int.toNat_of_nonneg hk0]; exact hje :
            j + (e.toNat : Int) ≤ (k.toNat : Int))
        push_cast at this ⊢
        linarith
      linarith
    push_cast
    linarith

/-- Witness for C2's amended theorem on a one-task day-normalized store. -/
theorem position_within_axis_witness :
    (getTaskPosition ⟨"1", "A", "initiating", 0, 86400000, none, 2⟩
        (getTimelineData 0 [⟨"1", "A", "initiating", 0, 86400000, none, 2⟩]).startDate
        (getTimelineData 0 [⟨"1", "A", "initiating", 0, 86400000, none, 2⟩]).totalDays).left +
      (getTaskPosition ⟨"1", "A", "initiating", 0, 86400000, none, 2⟩
        (getTimelineData 0 [⟨"1", "A", "initiating", 0, 86400000, none, 2⟩]).startDate
        (getTimelineData 0
          [⟨"1", "A", "initiating", 0, 86400000, none, 2⟩]).totalDays).width ≤ 100 :=
  position_within_axis 0 _ _ (by decide) (by decide) (by decide) (by decide)

/-- Counterexample to C2 as stated: one day-normalized task whose end
precedes its start (day 9 down to day 0; the source derives its duration
from the absolute difference, here 10) is placed at left 90% with width
100%, overshooting the axis by 90 percentage points. -/
theorem position_overflow_counterexample :
    (getTaskPosition ⟨"1", "R", "initiating", 777600000, 0, none,
        calculateDuration 777600000 0⟩
      (getTimelineData 0 [⟨"1", "R", "initiating", 777600000, 0, none,
          calculateDuration 777600000 0⟩]).startDate
      (getTimelineData 0 [⟨"1", "R", "initiating", 777600000, 0, none,
          calculateDuration 777600000 0⟩]).totalDays).left +
    (getTaskPosition ⟨"1", "R", "initiating", 777600000, 0, none,
        calculateDuration 777600000 0⟩
      (getTimelineData 0 [⟨"1", "R", "initiating", 777600000, 0, none,
          calculateDuration 777600000 0⟩]).startDate
      (getTimelineData 0 [⟨"1", "R", "initiating", 777600000, 0, none,
          calculateDuration 777600000 0⟩]).totalDays).width = 190 := by
  have h1 : getTimelineData 0 [⟨"1", "R", "initiating", 777600000, 0, none,
      calculateDuration 777600000 0⟩] = ⟨0, 777600000, 10⟩ := by decide
  rw [h1, getTaskPosition_eval]
  norm_num [calculateDuration, msPerDay]

/-- Counterexample to C4 as stated: two adds within the same millisecond
(`Date.now()` yields 5 twice) create two tasks with the identical id
`"5"`, so ids are not unique for every operation sequence. -/
theorem ids_collide_counterexample :
    taskIds (runOps [Op.add 5 ⟨"a", "initiating", 0, 0, ""⟩,
        Op.add 5 ⟨"b", "initiating", 0, 0, ""⟩] (initialState 0)) = ["5", "5"] ∧
    ¬ (taskIds (runOps [Op.add 5 ⟨"a", "initiating", 0, 0, ""⟩,
        Op.add 5 ⟨"b", "initiating", 0, 0, ""⟩] (initialState 0))).Nodup := by
  decide

/-- Claim C4 (amended): for every sequence of add and delete operations
from the empty store whose `Date.now()` readings at the adds are pairwise
distinct, the id list is duplicate-free at every point of the run, and an
id that has left the collection (only deletion removes ids) never
reappears at any later point. The run's points are the prefixes `p`,
`p ++ q` and `p ++ q ++ r` of the full trace `p ++ q ++ r ++ rest`. -/
theorem ids_unique_of_distinct_times (d0 : Int) (p q r rest : List Op)
    (hnodup : (addTimes (p ++ q ++ r ++ rest)).Nodup) :
    (taskIds (runOps (p ++ q) (initialState d0))).Nodup ∧
    (∀ i ∈ taskIds (runOps p (initialState d0)),
      i ∉ taskIds (runOps (p ++ q) (initialState d0)) →
      i ∉ taskIds (runOps (p ++ q ++ r) (initialState d0))) := by
  have h0 : ∀ i ∈ taskIds (initialState d0), ∃ n ∈ ([] : List Nat), i = toString n := by
    intro i hi; cases hi
  have hd0 : ∀ ops : List Op, ∀ n ∈ ([] : List Nat), n ∉ addTimes ops := by
    intro _ n hn; cases hn
  have hsplit : addTimes (p ++ q ++ r ++ rest) =
      (addTimes p ++ addTimes q) ++ (addTimes r ++ addTimes rest) := by
    rw [addTimes_append, addTimes_append, addTimes_append, List.append_assoc]
  rw [hsplit] at hnodup
  have hnd_pq : (addTimes p ++ addTimes q).Nodup := List.Nodup.of_append_left hnodup
  have hnd_p : (addTimes p).Nodup := List.Nodup.of_append_left hnd_pq
  have hdisj_pq_rr : (addTimes p ++ addTimes q).Disjoint (addTimes r ++ addTimes rest) :=
    (List.nodup_append.mp hnodup).2.2
  have hnd_pq' : (addTimes (p ++ q)).Nodup := by rw [addTimes_append]; exact hnd_pq
  constructor
  · exact (runOps_ids (p ++ q) (initialState d0) [] h0 List.nodup_nil
      (hd0 (p ++ q)) hnd_pq').1
  · intro i hip hipq hipqr
    rw [runOps_append (p ++ q) r] at hipqr
    obtain ⟨n, hnr, he⟩ :=
      new_id_from_add r (runOps (p ++ q) (initialState d0)) i hipq hipqr
    obtain ⟨n', hn', he'⟩ :=
      (runOps_ids p (initialState d0) [] h0 List.nodup_nil (hd0 p) hnd_p).2 i hip
    have hn'p : n' ∈ addTimes p := by
      rcases hn' with h | h
      · cases h
      · exact h
    have hnn : n = n' := natToString_injective (he.symm.trans he')
    exact hdisj_pq_rr (List.mem_append_left _ (hnn ▸ hn'p)) (List.mem_append_left _ hnr)

/-- Witness for C4's amended theorem: add at time 1, delete it, add at
time 2 — the resulting id list is duplicate-free. -/
theorem ids_unique_of_distinct_times_witness :
    (taskIds (runOps ([Op.add 1 ⟨"a", "initiating", 0, 0, ""⟩] ++ [Op.del "1"])
        (initialState 0))).Nodup :=
  (ids_unique_of_distinct_times 0 [Op.add 1 ⟨"a", "initiating", 0, 0, ""⟩]
    [Op.del "1"] [Op.add 2 ⟨"b", "initiating", 0, 0, ""⟩] [] (by decide)).1

/-- Claim C10: `getTasksByPhase` produces exactly the five fixed phase
keys in canonical order; a task whose phase string is outside the
enumeration is in none of the five groups, and therefore the concatenation
of the groups is not a permutation of the input when such a task is
present. -/
theorem getTasksByPhase_stray_phase (tasks : List Task) (t : Task)
    (ht : t ∈ tasks) (hp : t.phase ∉ phases.map Phase.value) :
    (getTasksByPhase tasks).map Prod.fst =
      ["initiating", "planning", "executing", "monitoring", "closing"] ∧
    (∀ g ∈ (getTasksByPhase tasks).map Prod.snd, t ∉ g) ∧
    ¬ (((getTasksByPhase tasks).map Prod.snd).flatten.Perm tasks) := by
  have hnot : ∀ g ∈ (getTasksByPhase tasks).map Prod.snd, t ∉ g := by
    intro g hg htg
    simp only [getTasksByPhase, List.map_map, List.mem_map, Function.comp] at hg
    obtain ⟨ph, hph, rfl⟩ := hg
    have hbeq := List.of_mem_filter htg
    exact hp (List.mem_map.mpr ⟨ph, hph, (beq_iff_eq.mp hbeq).symm⟩)
  refine ⟨by simp [getTasksByPhase, phases], hnot, ?_⟩
  intro hperm
  obtain ⟨g, hg, htg⟩ := List.mem_flatten.mp (hperm.mem_iff.mpr ht)
  exact hnot g hg htg

/-- Witness for C10: one task tagged with the unlisted phase `"done"`. -/
theorem getTasksByPhase_stray_phase_witness :
    ¬ (((getTasksByPhase [⟨"1", "T", "done", 0, 0, none, 1⟩]).map
        Prod.snd).flatten.Perm [⟨"1", "T", "done", 0, 0, none, 1⟩]) :=
  (getTasksByPhase_stray_phase [⟨"1", "T", "done", 0, 0, none, 1⟩]
    ⟨"1", "T", "done", 0, 0, none, 1⟩ (by decide) (by decide)).2.2

/-- Claim C9: with an edit draft active for task id `tid`, deleting `tid`
and then committing leaves the task collection unchanged (the deleted task
is not resurrected, no other task is modified) and clears the draft. -/
theorem saveEdit_after_deleteTask (s : GanttState) (tid : String)
    (h : s.editingTask = some tid) :
    saveEdit (deleteTask tid s) =
      { deleteTask tid s with editingTask := none, editData := emptyEditData } := by
  have hkeep : ∀ task ∈ s.tasks.filter (fun task => task.id != tid),
      (if task.id = tid then mergeEdit s.editData task else task) = task := by
    intro task htask
    have hne := List.of_mem_filter htask
    rw [bne_iff_ne] at hne
    simp [hne]
  simp only [saveEdit, deleteTask, h]
  congr 1
  exact (List.map_congr_left hkeep).trans (List.map_id _)

/-- Witness for C9 on a one-task store whose task is under edit. -/
theorem saveEdit_after_deleteTask_witness :
    saveEdit (deleteTask "1"
        ⟨[⟨"1", "T", "planning", 0, 86400000, none, 2⟩],
          ⟨"", "initiating", 0, 0, ""⟩, some "1",
          ⟨some "T", some 0, some 86400000, some ""⟩⟩) =
      { deleteTask "1"
          ⟨[⟨"1", "T", "planning", 0, 86400000, none, 2⟩],
            ⟨"", "initiating", 0, 0, ""⟩, some "1",
            ⟨some "T", some 0, some 86400000, some ""⟩⟩ with
        editingTask := none, editData := emptyEditData } :=
  saveEdit_after_deleteTask _ "1" rfl

/-- Claim C5: once a draft has been seeded from task `t` by `startEditing`
(so both dates are present in the draft), committing a draft whose only
change is the predecessor reproduces the derived duration of `t`, and
committing a draft whose dates were changed to `ns`/`ne` sets the duration
to `calculateDuration ns ne`. -/
theorem saveEdit_duration_recompute (s : GanttState) (t : Task)
    (_ht : t ∈ s.tasks)
    (hdur : t.duration = calculateDuration t.startDate t.endDate)
    (p : String) (ns ne : Int) :
    (∀ u ∈ (saveEdit { startEditing t s with
        editData := { (startEditing t s).editData with
          predecessor := some p } }).tasks,
      u.id = t.id → u.duration = t.duration) ∧
    (∀ u ∈ (saveEdit { startEditing t s with
        editData := { (startEditing t s).editData with
          startDate := some ns, endDate := some ne } }).tasks,
      u.id = t.id → u.duration = calculateDuration ns ne) := by
  constructor <;>
  · intro u hu hid
    simp only [saveEdit, startEditing] at hu
    rw [List.mem_map] at hu
    obtain ⟨v, hv, rfl⟩ := hu
    by_cases hcase : v.id = t.id
    · rw [if_pos hcase]
      simp [mergeEdit, hdur]
    · rw [if_neg hcase] at hid
      exact absurd hid hcase

/-- Witness for C5: a predecessor-only commit on a one-task store. -/
theorem saveEdit_duration_recompute_witness :
    (mergeEdit ⟨some "T", some 0, some 86400000, some "x"⟩
        ⟨"1", "T", "planning", 0, 86400000, none, 2⟩).duration = 2 :=
  (saveEdit_duration_recompute
      ⟨[⟨"1", "T", "planning", 0, 86400000, none, 2⟩],
        ⟨"", "initiating", 0, 0, ""⟩, none, emptyEditData⟩
      ⟨"1", "T", "planning", 0, 86400000, none, 2⟩ (by decide) (by decide)
      "x" 0 86400000).1
    (mergeEdit ⟨some "T", some 0, some 86400000, some "x"⟩
      ⟨"1", "T", "planning", 0, 86400000, none, 2⟩)
    (by decide) (by decide)

/-- Witness for C8 on a one-task store. -/
theorem beginEdit_cancelEdit_frame_witness :
    (cancelEdit (startEditing ⟨"1", "T", "planning", 0, 86400000, none, 2⟩
        ⟨[⟨"1", "T", "planning", 0, 86400000, none, 2⟩],
          ⟨"", "initiating", 0, 0, ""⟩, none, emptyEditData⟩)).tasks =
      [⟨"1", "T", "planning", 0, 86400000, none, 2⟩] :=
  beginEdit_cancelEdit_frame _ _ (by decide)
